import Mathlib

/-
Verification of the chunking / deduplication / eviction core of the
processia repository (src/processor.py, src/vectorstore.py).

Texts are modelled as `List Char`.  Python string primitives used by the
source (slicing, `strip`, `rfind`, substring test, `re` scans with the
concrete patterns appearing in the source) are embedded below.  Notes on
the embedding:
  * `str.strip()` is modelled over the ASCII whitespace characters
    (space, tab, newline, carriage return, vertical tab, form feed);
    the exotic Unicode space code points stripped by Python do not occur
    in any input considered here and play no role in any proof.
  * the regex class `\d` is modelled as an ASCII digit.
  * Python `chr` accepts lone surrogates, `Char.ofNat` maps them to the
    null character; no input considered here produces a surrogate.
-/

set_option maxRecDepth 8000

namespace Processia

abbrev Text := List Char

/-- Python whitespace for `str.strip` (ASCII subset, see header note). -/
def isPyWS (c : Char) : Bool :=
  c == ' ' || c == '\t' || c == '\n' || c == '\r' || c == '\x0b' || c == '\x0c'

/-- Python `s.strip()`: drop leading and trailing whitespace. -/
def pyStrip (t : Text) : Text :=
  ((t.dropWhile isPyWS).reverse.dropWhile isPyWS).reverse

/-- Python slicing `t[a:b]` (for 0 ≤ a ≤ b). -/
def sliceTxt (t : Text) (a b : Nat) : Text :=
  (t.drop a).take (b - a)

/-- Does `pat` occur in `t` starting at index `i`? -/
def matchAt (t : Text) (i : Nat) (pat : Text) : Bool :=
  decide ((t.drop i).take pat.length = pat)

/-- Python substring test `pat in t`. -/
def containsSub (t pat : Text) : Bool :=
  (List.range (t.length + 1)).any (fun i => matchAt t i pat)

/-- Python `t.rfind(pat, a, b)`: the largest index `i` with `a ≤ i`,
`i + pat.length ≤ min b t.length` and a match of `pat` at `i`; `none`
models Python's `-1`. -/
def rfindO (t pat : Text) (a b : Nat) : Option Nat :=
  (List.range (min b t.length + 1)).reverse.find?
    (fun i => decide (a ≤ i) && decide (i + pat.length ≤ min b t.length) && matchAt t i pat)

/- ------------------------------------------------------------------
   TextNormalizer: DocumentProcessor._fix_unicode_text (processor.py 18-43)
   ------------------------------------------------------------------ -/

/-- Value of a hexadecimal digit, as matched by `[0-9A-Fa-f]`. -/
def hexDigitVal (c : Char) : Option Nat :=
  if '0' ≤ c ∧ c ≤ '9' then some (c.toNat - 48)
  else if 'a' ≤ c ∧ c ≤ 'f' then some (c.toNat - 87)
  else if 'A' ≤ c ∧ c ≤ 'F' then some (c.toNat - 55)
  else none

/-- `re.sub(r'/uni([0-9A-Fa-f]{4})', chr(int(h,16)), text)`: left-to-right
non-overlapping replacement of the escape markers by the coded character. -/
def decodeUni : Text → Text
  | [] => []
  | '/' :: 'u' :: 'n' :: 'i' :: h1 :: h2 :: h3 :: h4 :: rest =>
    match hexDigitVal h1, hexDigitVal h2, hexDigitVal h3, hexDigitVal h4 with
    | some a, some b, some c', some d =>
      Char.ofNat (4096 * a + 256 * b + 16 * c' + d) :: decodeUni rest
    | _, _, _, _ =>
      -- failed match: the regex scan advances past the '/'; no new match
      -- can begin on the literal 'u', 'n', 'i', so it resumes at `h1`
      '/' :: 'u' :: 'n' :: 'i' :: decodeUni (h1 :: h2 :: h3 :: h4 :: rest)
  | c :: cs => c :: decodeUni cs

/-- `re.sub(r'[ \t]+', ' ', text)`: each maximal run of spaces and tabs
becomes a single space (the scan drops a run character while another run
character follows, emitting the space at the run's end). -/
def collapseSpaces : Text → Text
  | [] => []
  | c :: cs =>
    if c = ' ' ∨ c = '\t' then
      match cs with
      | c2 :: _ =>
        if c2 = ' ' ∨ c2 = '\t' then collapseSpaces cs else ' ' :: collapseSpaces cs
      | [] => [' ']
    else c :: collapseSpaces cs

/-- `re.sub(r'\n\n\n+', '\n\n', text)`: each maximal run of `k ≥ 3`
newlines becomes exactly two (the scan drops a newline while at least
two more follow, keeping the final two of the run). -/
def collapseNewlines : Text → Text
  | [] => []
  | c :: cs =>
    if c = '\n' then
      match cs with
      | c2 :: c3 :: _ =>
        if c2 = '\n' ∧ c3 = '\n' then collapseNewlines cs else c :: collapseNewlines cs
      | _ => c :: collapseNewlines cs
    else c :: collapseNewlines cs

/-- The literal marker searched by `'/uni' not in text`. -/
def uniMarker : Text := ['/', 'u', 'n', 'i']

/-- `DocumentProcessor._fix_unicode_text` (processor.py 18-43). -/
def fixUnicodeText (t : Text) : Text :=
  if t = [] ∨ containsSub t uniMarker = false then t
  else pyStrip (collapseNewlines (collapseSpaces (decodeUni t)))

/- ------------------------------------------------------------------
   Case-number extraction: _extract_numero_processo (processor.py 375-379)
   pattern r'\d{7}-\d{2}\.\d{4}\.\d{1}\.\d{2}\.\d{4}' over text[:3000]
   ------------------------------------------------------------------ -/

/-- The fixed shape of the case-number pattern: one test per character. -/
def numeroShape : List (Char → Bool) :=
  List.replicate 7 Char.isDigit ++ [fun c => c == '-'] ++
  List.replicate 2 Char.isDigit ++ [fun c => c == '.'] ++
  List.replicate 4 Char.isDigit ++ [fun c => c == '.'] ++
  List.replicate 1 Char.isDigit ++ [fun c => c == '.'] ++
  List.replicate 2 Char.isDigit ++ [fun c => c == '.'] ++
  List.replicate 4 Char.isDigit

/-- Does the case-number pattern match at the head of `t`? -/
def numeroHere (t : Text) : Bool :=
  numeroShape.length ≤ t.length &&
    (List.zipWith (fun p c => p c) numeroShape t).all (· = true)

/-- `re.search` for the fixed-shape pattern: leftmost match. -/
def findNumero : Text → Option Text
  | [] => none
  | c :: cs =>
    if numeroHere (c :: cs) then some ((c :: cs).take numeroShape.length)
    else findNumero cs

/-- `DocumentProcessor._extract_numero_processo`: search in `text[:3000]`;
`none` models Python's `None`. -/
def extractNumero (t : Text) : Option Text :=
  findNumero (t.take 3000)

/- ------------------------------------------------------------------
   Chunker: _is_mostly_overlapping, _split_text_small, _split_text
   (processor.py 278-373)
   ------------------------------------------------------------------ -/

/-- The scan of `_is_mostly_overlapping`: the largest `i` in
`[min 200 (min |t1| |t2|) .. 1]` with `t1[-i:] == t2[:i]`, else 0. -/
def boundaryOverlapLen (t1 t2 : Text) : Nat :=
  (((List.range' 1 (min 200 (min t1.length t2.length))).reverse).find?
    (fun i => decide (t1.drop (t1.length - i) = t2.take i))).getD 0

/-- `DocumentProcessor._is_mostly_overlapping` with the default
`threshold = 0.8`.  Python compares the float `overlap_len / min_len`
against the double nearest to 4/5; for the integer ranges that occur
(`overlap_len ≤ min_len ≤ |t|`, correctly rounded IEEE division) that
comparison holds exactly when `5 * overlap_len ≥ 4 * min_len`. -/
def isMostlyOverlapping (t1 t2 : Text) : Bool :=
  if t1 = [] ∨ t2 = [] then false
  else
    let minLen := min t1.length t2.length
    let overlapLen := boundaryOverlapLen t1 t2
    if overlapLen > 0 then decide (5 * overlapLen ≥ 4 * minLen) else false

/-- `min_chunk_size = max(100, chunk_size // 10)` (processor.py 306). -/
def minChunk (cs : Nat) : Nat := max 100 (cs / 10)

/-- `text.rfind('. ', start, end)` fallback of the boundary search. -/
def adjustEndDot (t : Text) (s e : Nat) : Nat :=
  match rfindO t ['.', ' '] s e with
  | some i => if s < i then i + 2 else e
  | none => e

/-- `text.rfind('\n', start, end)` fallback of the boundary search. -/
def adjustEndNewline (t : Text) (s e : Nat) : Nat :=
  match rfindO t ['\n'] s e with
  | some i => if s < i then i + 1 else adjustEndDot t s e
  | none => adjustEndDot t s e

/-- The natural-boundary search of `_split_text_small` (processor.py
311-326): prefer a paragraph break, then a line break, then a sentence
end; each only when found strictly after `start`. -/
def adjustEnd (t : Text) (s e : Nat) : Nat :=
  match rfindO t ['\n', '\n'] s e with
  | some i => if s < i then i + 2 else adjustEndNewline t s e
  | none => adjustEndNewline t s e

/-- State of the `while` loop of `_split_text_small`. -/
structure SplitSt where
  start : Nat
  chunks : List Text

/-- The conditional append of a produced piece (processor.py 332-336):
keep it only when non-empty after trimming, at least `min_chunk_size`
long, and not mostly overlapping the previously accepted piece. -/
def splitChunksAcc (cs : Nat) (chunks : List Text) (stripped : Text) : List Text :=
  if stripped ≠ [] ∧ minChunk cs ≤ stripped.length then
    match chunks.getLast? with
    | none => chunks ++ [stripped]
    | some last =>
      if isMostlyOverlapping stripped last then chunks
      else chunks ++ [stripped]
  else chunks

/-- The start-pointer update (processor.py 338-343). -/
def nextStart (ov start e1 : Nat) : Nat :=
  if 0 < ov then max (e1 - ov) (start + 1) else e1

/-- One iteration of the `while` loop of `_split_text_small` (processor.py
308-349).  `Sum.inr` is reaching a `break` (or the loop condition turning
false) with the final chunk list; `Sum.inl` continues with the next state. -/
def splitStep (t : Text) (cs ov : Nat) (st : SplitSt) : SplitSt ⊕ List Text :=
  if st.start < t.length then
    let e0 := min (st.start + cs) t.length
    let e1 := if e0 < t.length then adjustEnd t st.start e0 else e0
    let chunks' := splitChunksAcc cs st.chunks (pyStrip (sliceTxt t st.start e1))
    if e1 < t.length then
      let s' := nextStart ov st.start e1
      if t.length ≤ s' ∨ s' = e1 then Sum.inr chunks'
      else Sum.inl ⟨s', chunks'⟩
    else Sum.inr chunks'
  else Sum.inr st.chunks

/-- Fuel-bounded iteration of `splitStep`; `none` when the fuel runs out
(shown below never to happen from the initial state with fuel
`t.length + 1`). -/
def splitGo (t : Text) (cs ov : Nat) : Nat → SplitSt → Option (List Text)
  | 0, _ => none
  | fuel + 1, st =>
    match splitStep t cs ov st with
    | Sum.inr r => some r
    | Sum.inl st' => splitGo t cs ov fuel st'

/-- `DocumentProcessor._split_text_small` (processor.py 299-351). -/
def splitTextSmall (t : Text) (cs ov : Nat) : List Text :=
  if t.length ≤ cs then (if pyStrip t = [] then [] else [pyStrip t])
  else (splitGo t cs ov (t.length + 1) ⟨0, []⟩).getD []

/-- Python `range(0, len, step)`.  The source raises `ValueError` when
`step = 0` (only reachable for `chunk_size = 0`); that case is modelled
as no blocks and is outside every hypothesis used below. -/
def blockStarts (len step : Nat) : List Nat :=
  if step = 0 then [] else List.range' 0 ((len + step - 1) / step) step

/-- `DocumentProcessor._split_text` (processor.py 278-297): texts larger
than `100 * chunk_size` are first cut into blocks of `20 * chunk_size`. -/
def splitText (t : Text) (cs ov : Nat) : List Text :=
  if t.length ≤ cs then (if pyStrip t = [] then [] else [pyStrip t])
  else if t.length > cs * 100 then
    (blockStarts t.length (cs * 20)).foldl
      (fun acc i =>
        let block := sliceTxt t i (i + cs * 20)
        if pyStrip block = [] then acc else acc ++ splitTextSmall block cs ov)
      []
  else splitTextSmall t cs ov

/- ------------------------------------------------------------------
   IncrementalExtractor: DocumentProcessor.process_incremental
   (processor.py 137-276).  The pypdf page extraction is the external
   collaborator; the model takes the list of raw per-page texts it
   yields.  `chunk_callback` is modelled as present, with its successive
   invocations recorded in `batches`.
   ------------------------------------------------------------------ -/

/-- One stored chunk dict (processor.py 240-246). -/
structure Chunk where
  chunkId : Nat
  content : Text
  pageNumber : Nat
  documentId : Text
  filename : Text
deriving DecidableEq

/-- One entry of `pages_text` (processor.py 184-188). -/
structure PageMeta where
  pageNumber : Nat
  preview : Text
  charCount : Nat
deriving DecidableEq

/-- `MAX_PAGE_SIZE = 5 * 1024 * 1024` (processor.py 160). -/
def MAX_PAGE_SIZE : Nat := 5 * 1024 * 1024

/-- The truncation marker appended to oversized pages (processor.py 172). -/
def truncMarker : Text :=
  ('\n' :: '\n' :: ("[Conteudo truncado - pagina muito grande]".toList))

/-- Defensive truncation of oversized pages (processor.py 171-172). -/
def truncPage (t : Text) : Text :=
  if t.length > MAX_PAGE_SIZE then t.take MAX_PAGE_SIZE ++ truncMarker else t

/-- A page's content after `_fix_unicode_text` and truncation
(processor.py 165-172). -/
def pageContent (raw : Text) : Text :=
  truncPage (fixUnicodeText raw)

/-- The previous-page duplication check (processor.py 199-218), given the
content of the last accumulated chunk.  `none` models the `continue`
dropping the page; `some` is the (possibly trimmed) content kept. -/
def dedupAgainstLast (lastContent content : Text) : Option Text :=
  if 100 ≤ content.length ∧ 100 ≤ lastContent.length then
    if content.take 100 = lastContent.drop (lastContent.length - 100) then
      match rfindO lastContent (content.take 50) 0 lastContent.length with
      | some overlapPos =>
        if 0 < overlapPos then
          let skipChars := lastContent.length - overlapPos
          let content' :=
            if skipChars < content.length then pyStrip (content.drop skipChars)
            else content
          if content' = [] ∨ content'.length < 10 then none else some content'
        else some content
      | none => some content
    else some content
  else some content

/-- The per-page chunk-object creation with its `seen_chunk_contents`
set (processor.py 226-247). -/
def mkPageChunksGo (dI fn : Text) (pageNum : Nat) :
    List Text → List Text → List Chunk → Nat → List Chunk × Nat
  | [], _, acc, cid => (acc, cid)
  | tx :: txs, seen, acc, cid =>
    let tx' := pyStrip tx
    if tx' = [] then mkPageChunksGo dI fn pageNum txs seen acc cid
    else if tx' ∈ seen then mkPageChunksGo dI fn pageNum txs seen acc cid
    else mkPageChunksGo dI fn pageNum txs (seen ++ [tx'])
      (acc ++ [⟨cid, tx', pageNum, dI, fn⟩]) (cid + 1)

/-- Chunk objects created for one page from the split texts, starting
from chunk id `cid`. -/
def mkPageChunks (dI fn : Text) (pageNum cid : Nat) (texts : List Text) :
    List Chunk × Nat :=
  mkPageChunksGo dI fn pageNum texts [] [] cid

/-- Loop state of `process_incremental`: 1-based page counter, case
number found so far, `pages_text`, `all_chunks`, next chunk id, the
batches passed to `chunk_callback` so far, and `full_text_parts`. -/
structure PIState where
  pageNum : Nat
  numero : Option Text
  pagesMeta : List PageMeta
  allChunks : List Chunk
  chunkId : Nat
  batches : List (List Chunk)
  fullParts : List Text
deriving DecidableEq

/-- The chunking part of one page iteration (processor.py 190-256),
applied to the page's normalized content: empty-page skip, previous-page
duplication check, splitting, per-page chunk dedup, batch flush and
`full_text_parts` accumulation.  Returns the new
`(all_chunks, chunk_id, batches, full_text_parts)`. -/
def stepPageCore (cs ov bs : Nat) (dI fn : Text) (st : PIState) (content : Text) :
    List Chunk × Nat × List (List Chunk) × List Text :=
  if pyStrip content = [] then (st.allChunks, st.chunkId, st.batches, st.fullParts)
  else
    let c1 := pyStrip content
    let cOpt :=
      match st.allChunks.getLast? with
      | some last => dedupAgainstLast last.content c1
      | none => some c1
    match cOpt with
    | none => (st.allChunks, st.chunkId, st.batches, st.fullParts)
    | some c2 =>
      let pageTexts :=
        if c2.length > cs then splitText c2 cs ov
        else if pyStrip c2 = [] then [] else [c2]
      let created := mkPageChunks dI fn st.pageNum st.chunkId pageTexts
      let all := st.allChunks ++ created.1
      let flushed :=
        if bs ≤ all.length then (([] : List Chunk), st.batches ++ [all])
        else (all, st.batches)
      let fullParts' :=
        if st.fullParts.length < 100 then st.fullParts ++ [c2.take 10000]
        else st.fullParts
      (flushed.1, created.2, flushed.2, fullParts')

/-- One full page iteration of `process_incremental` (processor.py
163-256): normalization, case-number extraction on the first 10 pages,
`pages_text` recording, then the chunking part. -/
def stepPage (cs ov bs : Nat) (dI fn : Text) (st : PIState) (raw : Text) : PIState :=
  let content := pageContent raw
  let numero' :=
    if st.pageNum ≤ 10 ∧ st.numero = none then extractNumero content else st.numero
  let meta' := st.pagesMeta ++ [⟨st.pageNum, content.take 1000, content.length⟩]
  let core := stepPageCore cs ov bs dI fn st content
  { pageNum := st.pageNum + 1, numero := numero', pagesMeta := meta',
    allChunks := core.1, chunkId := core.2.1, batches := core.2.2.1,
    fullParts := core.2.2.2 }

/-- `DocumentProcessor.process_incremental` over the extracted page
texts, ending with the unconditional flush of the remaining chunks
(processor.py 258-260).  The returned state carries the data of the
result dict: `numero` and `pagesMeta` feed the metadata, `fullParts`
joins into `full_text`, and `batches` records the `chunk_callback`
invocations. -/
def processIncremental (cs ov bs : Nat) (dI fn : Text) (pages : List Text) : PIState :=
  let st := pages.foldl (stepPage cs ov bs dI fn) ⟨1, none, [], [], 0, [], []⟩
  if st.allChunks = [] then st
  else { st with batches := st.batches ++ [st.allChunks] }

/-- Declarative form of the case-number fold, used to state C9's amended
claim: the first page (in order) whose normalized content yields a
match, over a given page list. -/
def firstNumero : List Text → Option Text
  | [] => none
  | p :: ps =>
    match extractNumero (pageContent p) with
    | some n => some n
    | none => firstNumero ps

/- ------------------------------------------------------------------
   VectorStore eviction: enforce_document_limit, get_oldest_document,
   delete_document_chunks (vectorstore.py 321-416).  A stored chunk row
   carries several columns; eviction reads only `document_id` and the
   `created_at` insertion order, so rows are modelled by their document
   id, and the store by the list of rows in insertion order (oldest
   first), which is what `order("created_at", desc=False)` exposes.
   ------------------------------------------------------------------ -/

/-- One row of the embeddings table, as seen by the eviction policy. -/
structure StoredChunk where
  docId : Text
deriving DecidableEq

/-- The process-wide state touched by `enforce_document_limit`: the
`_processed_docs` memo set and the table contents. -/
structure StoreState where
  processedDocs : List Text
  store : List StoredChunk
deriving DecidableEq

/-- `VectorStore.get_oldest_document` (vectorstore.py 321-335). -/
def getOldestDocument (s : List StoredChunk) : Option Text :=
  s.head?.map (·.docId)

/-- `VectorStore.delete_document_chunks` (vectorstore.py 337-350). -/
def deleteDocumentChunks (s : List StoredChunk) (d : Text) : List StoredChunk :=
  s.filter (fun c => decide (c.docId ≠ d))

/-- The `count="exact"` row count for one document (vectorstore.py
365-370). -/
def chunkCountOf (s : List StoredChunk) (d : Text) : Nat :=
  (s.filter (fun c => decide (c.docId = d))).length

/-- The `for i in range(3)` eviction loop (vectorstore.py 387-405): stop
when the store is empty or the globally oldest document is the arriving
one; otherwise delete the oldest document's rows and continue. -/
def evictLoop (d : Text) : Nat → List StoredChunk → List StoredChunk
  | 0, s => s
  | n + 1, s =>
    match getOldestDocument s with
    | some old => if old ≠ d then evictLoop d n (deleteDocumentChunks s old) else s
    | none => s

/-- `VectorStore.enforce_document_limit` (vectorstore.py 352-416). -/
def enforceDocumentLimit (st : StoreState) (d : Text) : StoreState :=
  if d ∈ st.processedDocs then st
  else if 10 < chunkCountOf st.store d then
    { st with processedDocs := st.processedDocs ++ [d] }
  else
    { processedDocs := st.processedDocs ++ [d], store := evictLoop d 3 st.store }

/- ------------------------------------------------------------------
   Helper lemmas
   ------------------------------------------------------------------ -/

theorem evictLoop_sublist (d : Text) : ∀ (n : Nat) (s : List StoredChunk),
    List.Sublist (evictLoop d n s) s := by
  intro n
  induction n with
  | zero => intro s; exact List.Sublist.refl s
  | succ n ih =>
    intro s
    rcases h : getOldestDocument s with _ | old
    · simp only [evictLoop, h]
      exact List.Sublist.refl s
    · simp only [evictLoop, h]
      by_cases hod : old ≠ d
      · rw [if_pos hod]
        exact List.Sublist.trans (ih _) (List.filter_sublist s)
      · rw [if_neg hod]

theorem evictLoop_filter_arriving (d : Text) : ∀ (n : Nat) (s : List StoredChunk),
    (evictLoop d n s).filter (fun c => decide (c.docId = d))
      = s.filter (fun c => decide (c.docId = d)) := by
  intro n
  induction n with
  | zero => intro s; rfl
  | succ n ih =>
    intro s
    rcases h : getOldestDocument s with _ | old
    · simp only [evictLoop, h]
    · simp only [evictLoop, h]
      by_cases hod : old ≠ d
      · rw [if_pos hod, ih]
        simp only [deleteDocumentChunks, List.filter_filter]
        apply List.filter_congr
        intro c _
        by_cases hc : c.docId = d
        · simp [hc, Ne.symm hod]
        · simp [hc]
      · rw [if_neg hod]

theorem evictLoop_head_arriving (d : Text) (n : Nat) (s : List StoredChunk)
    (c₀ : StoredChunk) (h : s.head? = some c₀) (hd : c₀.docId = d) :
    evictLoop d (n + 1) s = s := by
  simp only [evictLoop, getOldestDocument, h, Option.map_some']
  rw [if_neg]
  simp [hd]

theorem mem_processed_enforce (st : StoreState) (d : Text) :
    d ∈ (enforceDocumentLimit st d).processedDocs := by
  simp only [enforceDocumentLimit]
  by_cases hmem : d ∈ st.processedDocs
  · rw [if_pos hmem]; exact hmem
  · rw [if_neg hmem]
    by_cases hcnt : 10 < chunkCountOf st.store d
    · rw [if_pos hcnt]; simp
    · rw [if_neg hcnt]; simp

/- ------------------------------------------------------------------
   Claim C8
   ------------------------------------------------------------------ -/

/-- Claim C8 (confirmed): `enforce_document_limit` checks or evicts a
document id at most once per run — a repeated call is a no-op thanks to
the `_processed_docs` memo — and when the arriving document already has
more than 10 stored chunks the store is left untouched (no eviction). -/
theorem c8_memo_and_resident_skip (st : StoreState) (d : Text) :
    (d ∈ st.processedDocs → enforceDocumentLimit st d = st)
  ∧ (10 < chunkCountOf st.store d → (enforceDocumentLimit st d).store = st.store)
  ∧ enforceDocumentLimit (enforceDocumentLimit st d) d = enforceDocumentLimit st d := by
  have h1 : ∀ (s : StoreState), d ∈ s.processedDocs → enforceDocumentLimit s d = s := by
    intro s hmem; simp [enforceDocumentLimit, hmem]
  refine ⟨h1 st, ?_, h1 _ (mem_processed_enforce st d)⟩
  intro hcnt
  by_cases hmem : d ∈ st.processedDocs
  · simp [enforceDocumentLimit, hmem]
  · simp [enforceDocumentLimit, hmem, hcnt]

def c8StA : StoreState := ⟨["d".toList], [⟨"x".toList⟩]⟩

def c8StB : StoreState := ⟨[], List.replicate 11 ⟨"d".toList⟩⟩

theorem c8_witness :
    (("d".toList ∈ c8StA.processedDocs)
      ∧ enforceDocumentLimit c8StA ("d".toList) = c8StA)
  ∧ ((10 < chunkCountOf c8StB.store ("d".toList))
      ∧ (enforceDocumentLimit c8StB ("d".toList)).store = c8StB.store) :=
  ⟨⟨by decide, (c8_memo_and_resident_skip c8StA ("d".toList)).1 (by decide)⟩,
   ⟨by decide, (c8_memo_and_resident_skip c8StB ("d".toList)).2.1 (by decide)⟩⟩

/- ------------------------------------------------------------------
   Claim C1
   ------------------------------------------------------------------ -/

def c1St : StoreState := ⟨[], [⟨"d".toList⟩, ⟨"e".toList⟩]⟩

/-- Claim C1 (counterexample): the arriving document `d` has one stored
chunk (≤ 10, not memoized), and a distinct resident document `e` exists,
yet `enforce_document_limit` deletes nothing: `get_oldest_document`
returns `d` itself (the globally oldest, not the oldest *other*
document) and the loop breaks immediately, so eviction is not
oldest-first among the documents other than the arriving one. -/
theorem c1_counterexample :
    ("d".toList ∉ c1St.processedDocs)
  ∧ chunkCountOf c1St.store ("d".toList) ≤ 10
  ∧ ("e".toList : Text) ≠ ("d".toList : Text)
  ∧ chunkCountOf c1St.store ("e".toList) = 1
  ∧ (enforceDocumentLimit c1St ("d".toList)).store = c1St.store := by decide

/-- Claim C1 (amended): for a non-memoized arriving document with at most
10 stored chunks, the eviction loop repeats up to 3 times taking the
*globally* oldest resident document — possibly the arriving one — and
stops as soon as that oldest document is the arriving one itself (even
when other distinct resident documents remain).  Consequently the
arriving document's own chunks are always preserved, the store only
shrinks, and if the arriving document is the oldest resident nothing at
all is evicted. -/
theorem c1_eviction_stops_at_arriving (st : StoreState) (d : Text)
    (hmem : d ∉ st.processedDocs) (hcnt : chunkCountOf st.store d ≤ 10) :
    ((enforceDocumentLimit st d).store.filter (fun c => decide (c.docId = d))
        = st.store.filter (fun c => decide (c.docId = d)))
  ∧ List.Sublist (enforceDocumentLimit st d).store st.store
  ∧ (∀ c₀, st.store.head? = some c₀ → c₀.docId = d →
        (enforceDocumentLimit st d).store = st.store) := by
  have hstore : (enforceDocumentLimit st d).store = evictLoop d 3 st.store := by
    simp only [enforceDocumentLimit]
    rw [if_neg hmem, if_neg (by omega)]
  refine ⟨?_, ?_, ?_⟩
  · rw [hstore]; exact evictLoop_filter_arriving d 3 st.store
  · rw [hstore]; exact evictLoop_sublist d 3 st.store
  · intro c₀ hh hd
    rw [hstore]
    exact evictLoop_head_arriving d 2 st.store c₀ hh hd

def c1StW : StoreState := ⟨[], [⟨"a".toList⟩, ⟨"b".toList⟩]⟩

theorem c1_witness :
    (("z".toList ∉ c1StW.processedDocs)
      ∧ chunkCountOf c1StW.store ("z".toList) ≤ 10)
  ∧ List.Sublist (enforceDocumentLimit c1StW ("z".toList)).store c1StW.store :=
  ⟨⟨by decide, by decide⟩,
   (c1_eviction_stops_at_arriving c1StW ("z".toList) (by decide) (by decide)).2.1⟩

/- ------------------------------------------------------------------
   Claim C6
   ------------------------------------------------------------------ -/

def c6x : Text := "/uni002Funi0041".toList

/-- Claim C6 (counterexample): normalization is not idempotent.  For
`x = "/uni002Funi0041"`, the first pass decodes `/uni002F` to `/`, which
joins the following `uni0041` into a fresh `/uni0041` marker, so a
second pass decodes further: `normalize(x) = "/uni0041"` but
`normalize(normalize(x)) = "A"`. -/
theorem c6_counterexample :
    fixUnicodeText (fixUnicodeText c6x) ≠ fixUnicodeText c6x := by decide

/-- Claim C6 (amended): the normalizer is idempotent on every input
whose normalized form no longer contains the `/uni` marker (in
particular on all marker-free text, where it is the identity); full
idempotence fails because decoding one escape can synthesize a new
escape marker. -/
theorem c6_idempotent_without_marker (t : Text)
    (h : containsSub (fixUnicodeText t) uniMarker = false) :
    fixUnicodeText (fixUnicodeText t) = fixUnicodeText t := by
  conv_lhs => rw [fixUnicodeText]
  rw [if_pos (Or.inr h)]

def c6w : Text := "ola mundo".toList

theorem c6_witness :
    containsSub (fixUnicodeText c6w) uniMarker = false
  ∧ fixUnicodeText (fixUnicodeText c6w) = fixUnicodeText c6w :=
  ⟨by decide, c6_idempotent_without_marker c6w (by decide)⟩

/- ------------------------------------------------------------------
   Claim C2
   ------------------------------------------------------------------ -/

def sampleDocId : Text := "doc_abc".toList

def sampleFn : Text := "f.pdf".toList

def abPage : Text := "ab".toList

/-- Claim C2 (counterexample): two pages with the same short content
yield two byte-identical chunks (ids 0 and 1) in the same document: the
`seen_chunk_contents` set is re-created for every page, so byte-identical
chunk texts are NOT deduplicated across the document. -/
theorem c2_counterexample :
    ((processIncremental 200 50 50 sampleDocId sampleFn [abPage, abPage]).batches.flatten.map
      (fun c => (c.chunkId, c.content))) = [(0, abPage), (1, abPage)] := by decide

/-- Claim C2 (amended): byte-identical chunk texts are deduplicated at
creation only within a single page — the chunks created for one page
have pairwise distinct contents — while chunks on different pages of the
same document may be byte-identical. -/
theorem c2_page_local_dedup (dI fn : Text) (pageNum cid : Nat) (texts : List Text) :
    (mkPageChunks dI fn pageNum cid texts).1.Pairwise (fun a b => a.content ≠ b.content) := by
  have key : ∀ (txs seen : List Text) (acc : List Chunk) (cid' : Nat),
      acc.Pairwise (fun a b => a.content ≠ b.content) →
      (∀ c ∈ acc, c.content ∈ seen) →
      (mkPageChunksGo dI fn pageNum txs seen acc cid').1.Pairwise
        (fun a b => a.content ≠ b.content) := by
    intro txs
    induction txs with
    | nil => intro seen acc cid' hp _; exact hp
    | cons tx txs ih =>
      intro seen acc cid' hp hseen
      simp only [mkPageChunksGo]
      by_cases h1 : pyStrip tx = []
      · rw [if_pos h1]; exact ih seen acc cid' hp hseen
      · rw [if_neg h1]
        by_cases h2 : pyStrip tx ∈ seen
        · rw [if_pos h2]; exact ih seen acc cid' hp hseen
        · rw [if_neg h2]
          apply ih
          · rw [List.pairwise_append]
            refine ⟨hp, List.pairwise_singleton _ _, ?_⟩
            intro a ha b hb
            simp only [List.mem_singleton] at hb
            subst hb
            intro hcontra
            change a.content = pyStrip tx at hcontra
            exact h2 (hcontra ▸ hseen a ha)
          · intro c hc
            rcases List.mem_append.mp hc with h | h
            · exact List.mem_append.mpr (Or.inl (hseen c h))
            · simp only [List.mem_singleton] at h
              subst h
              exact List.mem_append.mpr (Or.inr (by simp))
  exact key texts [] [] cid (List.Pairwise.nil) (by simp)

/- ------------------------------------------------------------------
   Claim C3
   ------------------------------------------------------------------ -/

def c3BigPage : Text := List.replicate 180 'X' ++ ['\n'] ++ List.replicate 119 'Y'

def c3Pages : List Text := List.replicate 49 abPage ++ [c3BigPage]

/-- Claim C3 (counterexample): a document producing N = 51 valid chunks
with `batch_size = 50` invokes the callback once — with 51 chunks — not
`ceil(51/50) = 2` times: the accumulator is only examined after a whole
page has been chunked and is then flushed in its entirety, so a page
contributing several chunks can push a single flush past `batch_size`. -/
theorem c3_counterexample :
    ((processIncremental 200 50 50 sampleDocId sampleFn c3Pages).batches.map
      List.length) = [51]
  ∧ (processIncremental 200 50 50 sampleDocId sampleFn c3Pages).batches.flatten.length = 51
  ∧ (1 : Nat) ≠ (51 + 50 - 1) / 50 := by decide

/-- Claim C3 (amended): the flush check runs once per page, after all of
the page's chunks are appended, sending the whole accumulator (possibly
more than `batch_size` chunks); the final partial batch is flushed
unconditionally.  When every page contributes exactly one chunk the
original count is restored: 237 one-chunk pages with `batch_size = 50`
invoke the callback exactly 5 times, the last call carrying 37 chunks. -/
theorem c3_flush_whole_accumulator :
    ((processIncremental 200 50 50 sampleDocId sampleFn
        (List.replicate 237 abPage)).batches.map List.length) = [50, 50, 50, 50, 37]
  ∧ (processIncremental 200 50 50 sampleDocId sampleFn
      (List.replicate 237 abPage)).batches.flatten.length = 237 := by decide

/- ------------------------------------------------------------------
   Claim C4
   ------------------------------------------------------------------ -/

def c4t : Text := ['X'] ++ List.replicate 120 'a' ++ ['Y']

/-- Claim C4 (counterexample): `t` has 122 characters and its first 100
characters differ from its last 100, so when two consecutive pages both
extract to exactly `t` the duplication check (`content[:100] ==
last_chunk[-100:]`) never fires and the content `t` is emitted twice —
the code does not apply the ≥80%-overlap rule here at all. -/
theorem c4_counterexample :
    100 ≤ c4t.length
  ∧ c4t.take 100 ≠ c4t.drop (c4t.length - 100)
  ∧ ((processIncremental 200 50 50 sampleDocId sampleFn [c4t, c4t]).batches.flatten.map
      Chunk.content) = [c4t, c4t] := by decide

def c4s : Text := List.replicate 150 'a'

/-- Claim C4 (amended): the second of two equal consecutive pages is
detected as duplicating the previous page only when the page's first 100
characters equal its last 100; in that case the overlap prefix located
by `rfind` of the first 50 characters is trimmed away (the page being
dropped entirely if fewer than 10 characters remain).  For
`t = 'a' * 150` the second page is trimmed to the 100-character
remainder, so the content `t` itself is emitted exactly once. -/
theorem c4_trim_on_heuristic_match :
    c4s.take 100 = c4s.drop (c4s.length - 100)
  ∧ ((processIncremental 200 50 50 sampleDocId sampleFn [c4s, c4s]).batches.flatten.map
      Chunk.content) = [c4s, List.replicate 100 'a']
  ∧ (((processIncremental 200 50 50 sampleDocId sampleFn [c4s, c4s]).batches.flatten.map
      Chunk.content).count c4s) = 1 := by decide

/- ------------------------------------------------------------------
   Claim C9 counterexample
   ------------------------------------------------------------------ -/

def numeroTxt : Text := "1234567-89.2012.3.45.6789".toList

def c9page : Text := List.replicate 3000 'x' ++ numeroTxt

theorem numeroHere_nondigit (c : Char) (t : Text) (h : c.isDigit = false) :
    numeroHere (c :: t) = false := by
  simp only [numeroHere, numeroShape, List.replicate_succ, List.cons_append,
    List.zipWith_cons_cons, List.all_cons]
  simp [h]

theorem findNumero_cons_nondigit (c : Char) (t : Text) (h : c.isDigit = false) :
    findNumero (c :: t) = findNumero t := by
  simp only [findNumero, numeroHere_nondigit c t h]
  simp

theorem findNumero_replicate_x (n : Nat) (l : Text) :
    findNumero (List.replicate n 'x' ++ l) = findNumero l := by
  induction n with
  | zero => simp
  | succ n ih =>
    rw [List.replicate_succ, List.cons_append, findNumero_cons_nondigit _ _ (by decide)]
    exact ih

theorem containsSub_eq_false_of_no_slash (t : Text) (h : ('/' : Char) ∉ t) :
    containsSub t uniMarker = false := by
  cases hx : containsSub t uniMarker
  · rfl
  · exfalso
    simp only [containsSub, List.any_eq_true] at hx
    obtain ⟨i, _, hm⟩ := hx
    simp only [matchAt, decide_eq_true_eq] at hm
    have hmem : ('/' : Char) ∈ (t.drop i).take uniMarker.length := by
      rw [hm]; simp [uniMarker]
    exact h ((List.drop_sublist i t).subset ((List.take_sublist _ _).subset hmem))

theorem c9_no_slash : ('/' : Char) ∉ c9page := by
  intro hmem
  rcases List.mem_append.mp hmem with h | h
  · rw [List.mem_replicate] at h
    exact absurd h.2 (by decide)
  · exact (by decide : ('/' : Char) ∉ numeroTxt) h

theorem pageContent_c9 : pageContent c9page = c9page := by
  have hfix : fixUnicodeText c9page = c9page := by
    rw [fixUnicodeText, if_pos (Or.inr (containsSub_eq_false_of_no_slash _ c9_no_slash))]
  have hlen : c9page.length = 3025 := by
    show (List.replicate 3000 'x' ++ numeroTxt).length = 3025
    rw [List.length_append, List.length_replicate]
    rfl
  have hM : MAX_PAGE_SIZE = 5242880 := rfl
  have hno : ¬ c9page.length > MAX_PAGE_SIZE := by rw [hlen, hM]; decide
  rw [pageContent, hfix, truncPage, if_neg hno]

theorem extractNumero_c9 : extractNumero c9page = none := by
  have htake : c9page.take 3000 = List.replicate 3000 'x' := by
    show (List.replicate 3000 'x' ++ numeroTxt).take 3000 = List.replicate 3000 'x'
    exact List.take_left' (List.length_replicate _ _)
  have h := findNumero_replicate_x 3000 []
  rw [List.append_nil] at h
  calc extractNumero c9page = findNumero (c9page.take 3000) := rfl
    _ = findNumero (List.replicate 3000 'x') := by rw [htake]
    _ = findNumero [] := h
    _ = none := rfl

theorem findNumero_c9 : findNumero c9page = some numeroTxt := by
  calc findNumero c9page
      = findNumero (List.replicate 3000 'x' ++ numeroTxt) := rfl
    _ = findNumero numeroTxt := findNumero_replicate_x 3000 numeroTxt
    _ = some numeroTxt := by decide

/-- Projection: one page step updates the case number exactly as the
guarded assignment on processor.py 180-181 does. -/
theorem stepPage_numero (cs ov bs : Nat) (dI fn : Text) (st : PIState) (raw : Text) :
    (stepPage cs ov bs dI fn st raw).numero =
      if st.pageNum ≤ 10 ∧ st.numero = none then extractNumero (pageContent raw)
      else st.numero := rfl

/-- Projection: one page step advances the page counter by one. -/
theorem stepPage_pageNum (cs ov bs : Nat) (dI fn : Text) (st : PIState) (raw : Text) :
    (stepPage cs ov bs dI fn st raw).pageNum = st.pageNum + 1 := rfl

/-- The final unconditional flush does not touch the case number. -/
theorem processIncremental_numero (cs ov bs : Nat) (dI fn : Text) (pages : List Text) :
    (processIncremental cs ov bs dI fn pages).numero =
      (pages.foldl (stepPage cs ov bs dI fn) ⟨1, none, [], [], 0, [], []⟩).numero := by
  simp only [processIncremental]
  by_cases h : (pages.foldl (stepPage cs ov bs dI fn) ⟨1, none, [], [], 0, [], []⟩).allChunks = []
  · rw [if_pos h]
  · rw [if_neg h]

/-- Claim C9 (counterexample): a single-page document whose case number
starts at offset 3000 of the page text: a match exists in the first 10
pages' extracted text, yet the recorded metadata case-number is `None`,
because `_extract_numero_processo` searches only `text[:3000]` of each
page. -/
theorem c9_counterexample :
    (processIncremental 200 0 50 sampleDocId sampleFn [c9page]).numero = none
  ∧ findNumero (pageContent c9page) = some numeroTxt := by
  constructor
  · calc (processIncremental 200 0 50 sampleDocId sampleFn [c9page]).numero
        = (stepPage 200 0 50 sampleDocId sampleFn ⟨1, none, [], [], 0, [], []⟩ c9page).numero := by
          rw [processIncremental_numero, List.foldl_cons, List.foldl_nil]
      _ = extractNumero (pageContent c9page) := by
          rw [stepPage_numero]
          rw [if_pos ⟨by decide, rfl⟩]
      _ = extractNumero c9page := by rw [pageContent_c9]
      _ = none := extractNumero_c9
  · calc findNumero (pageContent c9page)
        = findNumero c9page := by rw [pageContent_c9]
      _ = some numeroTxt := findNumero_c9

/- ------------------------------------------------------------------
   Split-loop lemmas (for C5, C7, C10)
   ------------------------------------------------------------------ -/

theorem rfindO_some (t pat : Text) (a b i : Nat) (h : rfindO t pat a b = some i) :
    a ≤ i ∧ i + pat.length ≤ min b t.length := by
  have hp := List.find?_some h
  simp only [Bool.and_eq_true, decide_eq_true_eq] at hp
  exact ⟨hp.1.1, hp.1.2⟩

theorem adjustEndDot_le (t : Text) (s e : Nat) : adjustEndDot t s e ≤ e := by
  unfold adjustEndDot
  rcases h : rfindO t ['.', ' '] s e with _ | i
  · exact Nat.le_refl e
  · show (if s < i then i + 2 else e) ≤ e
    have hb := (rfindO_some t _ s e i h).2
    simp only [List.length_cons, List.length_nil] at hb
    by_cases hsi : s < i
    · rw [if_pos hsi]; omega
    · rw [if_neg hsi]

theorem adjustEndNewline_le (t : Text) (s e : Nat) : adjustEndNewline t s e ≤ e := by
  unfold adjustEndNewline
  rcases h : rfindO t ['\n'] s e with _ | i
  · exact adjustEndDot_le t s e
  · show (if s < i then i + 1 else adjustEndDot t s e) ≤ e
    have hb := (rfindO_some t _ s e i h).2
    simp only [List.length_cons, List.length_nil] at hb
    by_cases hsi : s < i
    · rw [if_pos hsi]; omega
    · rw [if_neg hsi]
      exact adjustEndDot_le t s e

theorem adjustEnd_le (t : Text) (s e : Nat) : adjustEnd t s e ≤ e := by
  unfold adjustEnd
  rcases h : rfindO t ['\n', '\n'] s e with _ | i
  · exact adjustEndNewline_le t s e
  · show (if s < i then i + 2 else adjustEndNewline t s e) ≤ e
    have hb := (rfindO_some t _ s e i h).2
    simp only [List.length_cons, List.length_nil] at hb
    by_cases hsi : s < i
    · rw [if_pos hsi]; omega
    · rw [if_neg hsi]
      exact adjustEndNewline_le t s e

theorem length_pyStrip_le (t : Text) : (pyStrip t).length ≤ t.length := by
  unfold pyStrip
  calc ((t.dropWhile isPyWS).reverse.dropWhile isPyWS).reverse.length
      = ((t.dropWhile isPyWS).reverse.dropWhile isPyWS).length := List.length_reverse _
    _ ≤ (t.dropWhile isPyWS).reverse.length :=
        (List.dropWhile_sublist _).length_le
    _ = (t.dropWhile isPyWS).length := List.length_reverse _
    _ ≤ t.length := (List.dropWhile_sublist _).length_le

theorem length_sliceTxt_le (t : Text) (a b : Nat) : (sliceTxt t a b).length ≤ b - a := by
  unfold sliceTxt
  calc ((t.drop a).take (b - a)).length ≤ b - a := by
        rw [List.length_take]
        omega

/-- The end index computed by one loop iteration stays within
`start + chunk_size`. -/
theorem splitEnd_le (t : Text) (cs : Nat) (st : SplitSt) :
    (if min (st.start + cs) t.length < t.length
        then adjustEnd t st.start (min (st.start + cs) t.length)
        else min (st.start + cs) t.length) ≤ st.start + cs := by
  by_cases h : min (st.start + cs) t.length < t.length
  · rw [if_pos h]
    have := adjustEnd_le t st.start (min (st.start + cs) t.length)
    omega
  · rw [if_neg h]
    omega

theorem splitChunksAcc_prop (cs : Nat) (chunks : List Text) (stripped : Text)
    (hc : ∀ c ∈ chunks, c ≠ [] ∧ minChunk cs ≤ c.length ∧ c.length ≤ cs)
    (hlen : stripped.length ≤ cs) :
    ∀ c ∈ splitChunksAcc cs chunks stripped,
      c ≠ [] ∧ minChunk cs ≤ c.length ∧ c.length ≤ cs := by
  intro c hmem
  unfold splitChunksAcc at hmem
  by_cases hg : stripped ≠ [] ∧ minChunk cs ≤ stripped.length
  · rw [if_pos hg] at hmem
    have hnew : stripped ≠ [] ∧ minChunk cs ≤ stripped.length ∧ stripped.length ≤ cs :=
      ⟨hg.1, hg.2, hlen⟩
    rcases hl : chunks.getLast? with _ | last
    · rw [hl] at hmem
      change c ∈ chunks ++ [stripped] at hmem
      rcases List.mem_append.mp hmem with h | h
      · exact hc c h
      · simp only [List.mem_singleton] at h
        exact h ▸ hnew
    · rw [hl] at hmem
      change c ∈ (if isMostlyOverlapping stripped last then chunks
        else chunks ++ [stripped]) at hmem
      by_cases ho : isMostlyOverlapping stripped last
      · rw [if_pos ho] at hmem
        exact hc c hmem
      · rw [if_neg ho] at hmem
        rcases List.mem_append.mp hmem with h | h
        · exact hc c h
        · simp only [List.mem_singleton] at h
          exact h ▸ hnew
  · rw [if_neg hg] at hmem
    exact hc c hmem

theorem splitStep_prop (t : Text) (cs ov : Nat) (st : SplitSt)
    (hc : ∀ c ∈ st.chunks, c ≠ [] ∧ minChunk cs ≤ c.length ∧ c.length ≤ cs) :
    (∀ st', splitStep t cs ov st = Sum.inl st' →
        ∀ c ∈ st'.chunks, c ≠ [] ∧ minChunk cs ≤ c.length ∧ c.length ≤ cs)
  ∧ (∀ r, splitStep t cs ov st = Sum.inr r →
        ∀ c ∈ r, c ≠ [] ∧ minChunk cs ≤ c.length ∧ c.length ≤ cs) := by
  have hacc : ∀ c ∈ splitChunksAcc cs st.chunks
      (pyStrip (sliceTxt t st.start
        (if min (st.start + cs) t.length < t.length
          then adjustEnd t st.start (min (st.start + cs) t.length)
          else min (st.start + cs) t.length))),
      c ≠ [] ∧ minChunk cs ≤ c.length ∧ c.length ≤ cs := by
    apply splitChunksAcc_prop cs st.chunks _ hc
    have h1 := length_pyStrip_le (sliceTxt t st.start
      (if min (st.start + cs) t.length < t.length
        then adjustEnd t st.start (min (st.start + cs) t.length)
        else min (st.start + cs) t.length))
    have h2 := length_sliceTxt_le t st.start
      (if min (st.start + cs) t.length < t.length
        then adjustEnd t st.start (min (st.start + cs) t.length)
        else min (st.start + cs) t.length)
    have h3 := splitEnd_le t cs st
    omega
  constructor
  · intro st' h
    simp only [splitStep] at h
    by_cases h0 : st.start < t.length
    · rw [if_pos h0] at h
      by_cases h1 : (if min (st.start + cs) t.length < t.length
          then adjustEnd t st.start (min (st.start + cs) t.length)
          else min (st.start + cs) t.length) < t.length
      · rw [if_pos h1] at h
        by_cases h2 : t.length ≤ nextStart ov st.start
              (if min (st.start + cs) t.length < t.length
                then adjustEnd t st.start (min (st.start + cs) t.length)
                else min (st.start + cs) t.length)
            ∨ nextStart ov st.start
              (if min (st.start + cs) t.length < t.length
                then adjustEnd t st.start (min (st.start + cs) t.length)
                else min (st.start + cs) t.length)
              = (if min (st.start + cs) t.length < t.length
                  then adjustEnd t st.start (min (st.start + cs) t.length)
                  else min (st.start + cs) t.length)
        · rw [if_pos h2] at h
          exact absurd h (by simp)
        · rw [if_neg h2] at h
          have hst' : st' = ⟨nextStart ov st.start
              (if min (st.start + cs) t.length < t.length
                then adjustEnd t st.start (min (st.start + cs) t.length)
                else min (st.start + cs) t.length),
              splitChunksAcc cs st.chunks (pyStrip (sliceTxt t st.start
                (if min (st.start + cs) t.length < t.length
                  then adjustEnd t st.start (min (st.start + cs) t.length)
                  else min (st.start + cs) t.length)))⟩ := by
            cases h
            rfl
          rw [hst']
          exact hacc
      · rw [if_neg h1] at h
        exact absurd h (by simp)
    · rw [if_neg h0] at h
      exact absurd h (by simp)
  · intro r h
    simp only [splitStep] at h
    by_cases h0 : st.start < t.length
    · rw [if_pos h0] at h
      by_cases h1 : (if min (st.start + cs) t.length < t.length
          then adjustEnd t st.start (min (st.start + cs) t.length)
          else min (st.start + cs) t.length) < t.length
      · rw [if_pos h1] at h
        by_cases h2 : t.length ≤ nextStart ov st.start
              (if min (st.start + cs) t.length < t.length
                then adjustEnd t st.start (min (st.start + cs) t.length)
                else min (st.start + cs) t.length)
            ∨ nextStart ov st.start
              (if min (st.start + cs) t.length < t.length
                then adjustEnd t st.start (min (st.start + cs) t.length)
                else min (st.start + cs) t.length)
              = (if min (st.start + cs) t.length < t.length
                  then adjustEnd t st.start (min (st.start + cs) t.length)
                  else min (st.start + cs) t.length)
        · rw [if_pos h2] at h
          have hr : r = splitChunksAcc cs st.chunks (pyStrip (sliceTxt t st.start
              (if min (st.start + cs) t.length < t.length
                then adjustEnd t st.start (min (st.start + cs) t.length)
                else min (st.start + cs) t.length))) := by
            cases h
            rfl
          rw [hr]
          exact hacc
        · rw [if_neg h2] at h
          exact absurd h (by simp)
      · rw [if_neg h1] at h
        have hr : r = splitChunksAcc cs st.chunks (pyStrip (sliceTxt t st.start
            (if min (st.start + cs) t.length < t.length
              then adjustEnd t st.start (min (st.start + cs) t.length)
              else min (st.start + cs) t.length))) := by
          cases h
          rfl
        rw [hr]
        exact hacc
    · rw [if_neg h0] at h
      have hr : r = st.chunks := by
        cases h
        rfl
      rw [hr]
      exact hc

theorem splitStep_inl_lt (t : Text) (cs ov : Nat) (st st' : SplitSt)
    (h : splitStep t cs ov st = Sum.inl st') :
    st.start < t.length ∧ st.start < st'.start := by
  simp only [splitStep] at h
  by_cases h0 : st.start < t.length
  · rw [if_pos h0] at h
    refine ⟨h0, ?_⟩
    by_cases h1 : (if min (st.start + cs) t.length < t.length
        then adjustEnd t st.start (min (st.start + cs) t.length)
        else min (st.start + cs) t.length) < t.length
    · rw [if_pos h1] at h
      by_cases h2 : t.length ≤ nextStart ov st.start
            (if min (st.start + cs) t.length < t.length
              then adjustEnd t st.start (min (st.start + cs) t.length)
              else min (st.start + cs) t.length)
          ∨ nextStart ov st.start
            (if min (st.start + cs) t.length < t.length
              then adjustEnd t st.start (min (st.start + cs) t.length)
              else min (st.start + cs) t.length)
            = (if min (st.start + cs) t.length < t.length
                then adjustEnd t st.start (min (st.start + cs) t.length)
                else min (st.start + cs) t.length)
      · rw [if_pos h2] at h
        exact absurd h (by simp)
      · rw [if_neg h2] at h
        have hst' : st'.start = nextStart ov st.start
            (if min (st.start + cs) t.length < t.length
              then adjustEnd t st.start (min (st.start + cs) t.length)
              else min (st.start + cs) t.length) := by
          cases h
          rfl
        rw [hst']
        by_cases hov : 0 < ov
        · unfold nextStart
          rw [if_pos hov]
          omega
        · exfalso
          apply h2
          right
          unfold nextStart
          rw [if_neg hov]
    · rw [if_neg h1] at h
      exact absurd h (by simp)
  · rw [if_neg h0] at h
    exact absurd h (by simp)

theorem splitGo_isSome (t : Text) (cs ov : Nat) :
    ∀ (fuel : Nat) (st : SplitSt), t.length - st.start < fuel →
      (splitGo t cs ov fuel st).isSome = true := by
  intro fuel
  induction fuel with
  | zero => intro st h; omega
  | succ fuel ih =>
    intro st h
    simp only [splitGo]
    rcases hstep : splitStep t cs ov st with st' | r
    · have hlt := splitStep_inl_lt t cs ov st st' hstep
      exact ih st' (by omega)
    · rfl

/-- The chunk-list invariant carried through the whole loop. -/
theorem splitGo_prop (t : Text) (cs ov : Nat) :
    ∀ (fuel : Nat) (st : SplitSt),
      (∀ c ∈ st.chunks, c ≠ [] ∧ minChunk cs ≤ c.length ∧ c.length ≤ cs) →
      ∀ r, splitGo t cs ov fuel st = some r →
        ∀ c ∈ r, c ≠ [] ∧ minChunk cs ≤ c.length ∧ c.length ≤ cs := by
  intro fuel
  induction fuel with
  | zero => intro st _ r h; exact absurd h (by simp [splitGo])
  | succ fuel ih =>
    intro st hc r h
    simp only [splitGo] at h
    rcases hstep : splitStep t cs ov st with st' | r0
    · rw [hstep] at h
      exact ih st' ((splitStep_prop t cs ov st hc).1 st' hstep) r h
    · rw [hstep] at h
      simp only [Option.some.injEq] at h
      subst h
      exact (splitStep_prop t cs ov st hc).2 r0 hstep

theorem splitTextSmall_mem (t : Text) (cs ov : Nat) (c : Text)
    (h : c ∈ splitTextSmall t cs ov) :
    c ≠ [] ∧ c.length ≤ cs ∧ (cs < t.length → minChunk cs ≤ c.length) := by
  unfold splitTextSmall at h
  by_cases h0 : t.length ≤ cs
  · rw [if_pos h0] at h
    by_cases h1 : pyStrip t = []
    · rw [if_pos h1] at h
      exact absurd h (by simp)
    · rw [if_neg h1] at h
      simp only [List.mem_singleton] at h
      subst h
      exact ⟨h1, Nat.le_trans (length_pyStrip_le t) h0, fun hcon => absurd hcon (by omega)⟩
  · rw [if_neg h0] at h
    rcases hgo : splitGo t cs ov (t.length + 1) ⟨0, []⟩ with _ | r
    · rw [hgo] at h
      exact absurd h (by simp)
    · rw [hgo] at h
      have hp := splitGo_prop t cs ov (t.length + 1) ⟨0, []⟩ (by simp) r hgo c h
      exact ⟨hp.1, hp.2.2, fun _ => hp.2.1⟩

theorem splitText_blocks_mem (t : Text) (cs ov : Nat) (l : List Nat) (acc : List Text)
    (c : Text)
    (h : c ∈ l.foldl
      (fun acc i =>
        let block := sliceTxt t i (i + cs * 20)
        if pyStrip block = [] then acc else acc ++ splitTextSmall block cs ov) acc) :
    c ∈ acc ∨ ∃ i, c ∈ splitTextSmall (sliceTxt t i (i + cs * 20)) cs ov := by
  induction l generalizing acc with
  | nil => exact Or.inl h
  | cons i l ih =>
    simp only [List.foldl_cons] at h
    rcases ih _ h with hacc | hex
    · by_cases hb : pyStrip (sliceTxt t i (i + cs * 20)) = []
      · rw [if_pos hb] at hacc
        exact Or.inl hacc
      · rw [if_neg hb] at hacc
        rcases List.mem_append.mp hacc with h1 | h1
        · exact Or.inl h1
        · exact Or.inr ⟨i, h1⟩
    · exact Or.inr hex

/-- Claim C5 (confirmed): every string produced by `_split_text` is
non-empty and has length at most `chunk_size`; in fact the bound holds
with no exception at all — the boundary search only ever moves the
window end earlier, and the sole/final-remainder case of a short input
is the trimmed input itself, of length at most `chunk_size`.  (For
`chunk_size = 0` the source raises `ValueError` in `range`; the
hypothesis `0 < cs` restricts the statement to the calls that return.) -/
theorem c5_size_bound (t : Text) (cs ov : Nat) (_hcs : 0 < cs) :
    ∀ c ∈ splitText t cs ov, c ≠ [] ∧ c.length ≤ cs := by
  intro c h
  unfold splitText at h
  by_cases h0 : t.length ≤ cs
  · rw [if_pos h0] at h
    by_cases h1 : pyStrip t = []
    · rw [if_pos h1] at h
      exact absurd h (by simp)
    · rw [if_neg h1] at h
      simp only [List.mem_singleton] at h
      subst h
      exact ⟨h1, Nat.le_trans (length_pyStrip_le t) h0⟩
  · rw [if_neg h0] at h
    by_cases h1 : t.length > cs * 100
    · rw [if_pos h1] at h
      rcases splitText_blocks_mem t cs ov _ [] c h with habs | ⟨i, hmem⟩
      · exact absurd habs (by simp)
      · have hp := splitTextSmall_mem _ cs ov c hmem
        exact ⟨hp.1, hp.2.1⟩
    · rw [if_neg h1] at h
      have hp := splitTextSmall_mem t cs ov c h
      exact ⟨hp.1, hp.2.1⟩

def c5t : Text := List.replicate 150 'x'

def c5c : Text := List.replicate 120 'x'

theorem c5_witness :
    ((0 : Nat) < 120 ∧ c5c ∈ splitText c5t 120 0)
  ∧ (c5c ≠ [] ∧ c5c.length ≤ 120) :=
  ⟨⟨by decide, by decide⟩, c5_size_bound c5t 120 0 (by decide) c5c (by decide)⟩

def c7t : Text := List.replicate 210 'x'

/-- Claim C7 (counterexample): for a 210-character input with
`chunk_size = 200`, `overlap = 50`, the loop's final piece is the
60-character remainder `text[150:210]`; it is BELOW the floor
`max(100, 200/10) = 100` and is discarded — the source applies the
minimum-size filter to every produced piece including the final
remainder, so the result keeps only the first 200-character chunk. -/
theorem c7_counterexample :
    splitText c7t 200 50 = [List.replicate 200 'x'] ∧ minChunk 200 = 100 := by decide

/-- Claim C7 (amended): for input text longer than `max_size` (and at
most `100 * max_size`, where the block path does not apply), EVERY piece
kept by the split — including the final remainder — has trimmed length
at least `max(100, max_size/10)`; a final remainder below the floor is
discarded, not kept. -/
theorem c7_floor_discards_final (t : Text) (cs ov : Nat)
    (h1 : cs < t.length) (h2 : t.length ≤ cs * 100) :
    ∀ c ∈ splitText t cs ov, minChunk cs ≤ c.length := by
  intro c h
  unfold splitText at h
  rw [if_neg (by omega), if_neg (by omega)] at h
  exact (splitTextSmall_mem t cs ov c h).2.2 h1

theorem c7_witness :
    ((200 : Nat) < c7t.length ∧ c7t.length ≤ 200 * 100
      ∧ List.replicate 200 'x' ∈ splitText c7t 200 50)
  ∧ minChunk 200 ≤ (List.replicate 200 'x' : Text).length :=
  ⟨⟨by decide, by decide, by decide⟩,
   c7_floor_discards_final c7t 200 50 (by decide) (by decide) _ (by decide)⟩

/-- Claim C10 (confirmed): the split loop terminates on every input:
whenever an iteration continues, the start index strictly advances
(`start' = max(end - overlap, start + 1)` when `overlap > 0`; with
`overlap = 0` the `start == end` break always fires), so running the
loop from the initial state with fuel `len(text) + 1` always reaches a
result — splitting is a total function.  This holds for every
`chunk_size` and `chunk_overlap`, in particular for `chunk_size ≥ 1`. -/
theorem c10_split_terminates (t : Text) (cs ov : Nat) :
    (∀ st st', splitStep t cs ov st = Sum.inl st' → st.start < st'.start)
  ∧ (∀ st fuel, t.length - st.start < fuel → (splitGo t cs ov fuel st).isSome = true)
  ∧ (splitGo t cs ov (t.length + 1) ⟨0, []⟩).isSome = true :=
  ⟨fun st st' h => (splitStep_inl_lt t cs ov st st' h).2,
   fun st fuel h => splitGo_isSome t cs ov fuel st h,
   splitGo_isSome t cs ov (t.length + 1) ⟨0, []⟩ (by omega)⟩

def c10t : Text := "abc def".toList

theorem c10_witness :
    (c10t.length - 0 < 8) ∧ (splitGo c10t 3 1 8 ⟨0, []⟩).isSome = true :=
  ⟨by decide, (c10_split_terminates c10t 3 1).2.1 ⟨0, []⟩ 8 (by decide)⟩

/- ------------------------------------------------------------------
   Claim C9 amended theorem
   ------------------------------------------------------------------ -/

theorem firstNumero_eq_none (l : List Text) :
    firstNumero l = none ↔ ∀ p ∈ l, extractNumero (pageContent p) = none := by
  induction l with
  | nil => simp [firstNumero]
  | cons p ps ih =>
    simp only [firstNumero, List.mem_cons]
    rcases hx : extractNumero (pageContent p) with _ | y
    · simp only []
      rw [ih]
      constructor
      · intro h q hq
        rcases hq with hq | hq
        · rw [hq]; exact hx
        · exact h q hq
      · intro h q hq
        exact h q (Or.inr hq)
    · simp only []
      constructor
      · intro h
        exact absurd h (by simp)
      · intro h
        have := h p (Or.inl rfl)
        rw [hx] at this
        exact absurd this (by simp)

theorem foldl_numero (cs ov bs : Nat) (dI fn : Text) :
    ∀ (pages : List Text) (st : PIState),
      (pages.foldl (stepPage cs ov bs dI fn) st).numero =
        match st.numero with
        | some x => some x
        | none =>
          if st.pageNum ≤ 10 then firstNumero (pages.take (11 - st.pageNum))
          else none := by
  intro pages
  induction pages with
  | nil =>
    intro st
    simp only [List.foldl_nil]
    rcases hsn : st.numero with _ | x
    · simp only []
      by_cases hp : st.pageNum ≤ 10
      · rw [if_pos hp, List.take_nil]
        rfl
      · rw [if_neg hp]
    · rfl
  | cons p ps ih =>
    intro st
    simp only [List.foldl_cons]
    rw [ih, stepPage_numero, stepPage_pageNum]
    rcases hsn : st.numero with _ | x
    · by_cases hp : st.pageNum ≤ 10
      · rw [if_pos ⟨hp, rfl⟩]
        show (match extractNumero (pageContent p) with
              | some y => some y
              | none => if st.pageNum + 1 ≤ 10 then
                  firstNumero (ps.take (11 - (st.pageNum + 1))) else none)
            = if st.pageNum ≤ 10 then firstNumero ((p :: ps).take (11 - st.pageNum))
              else none
        rw [if_pos hp, show 11 - st.pageNum = (10 - st.pageNum) + 1 from by omega,
          List.take_succ_cons]
        rcases hx : extractNumero (pageContent p) with _ | y
        · show (if st.pageNum + 1 ≤ 10 then
              firstNumero (ps.take (11 - (st.pageNum + 1))) else none)
            = firstNumero (p :: ps.take (10 - st.pageNum))
          simp only [firstNumero, hx]
          by_cases hp1 : st.pageNum + 1 ≤ 10
          · rw [if_pos hp1, show 11 - (st.pageNum + 1) = 10 - st.pageNum from by omega]
          · rw [if_neg hp1, show 10 - st.pageNum = 0 from by omega, List.take_zero]
            rfl
        · show (some y : Option Text) = firstNumero (p :: ps.take (10 - st.pageNum))
          simp only [firstNumero, hx]
      · rw [if_neg (fun hand => hp hand.1)]
        show (if st.pageNum + 1 ≤ 10 then
              firstNumero (ps.take (11 - (st.pageNum + 1))) else none)
            = if st.pageNum ≤ 10 then firstNumero ((p :: ps).take (11 - st.pageNum))
              else none
        rw [if_neg hp, if_neg (by omega : ¬ st.pageNum + 1 ≤ 10)]
    · rw [if_neg (fun hand => Option.noConfusion hand.2)]

/-- Claim C9 (amended): the recorded case-number is the first match of
the pattern found within the FIRST 3000 CHARACTERS of a page's
normalized text, scanning pages 1..10 in order (`extractNumero` searches
`text[:3000]` only), and it is null exactly when no page among the
first 10 has a match within its first 3000 characters. -/
theorem c9_numero_first_3000 (cs ov bs : Nat) (dI fn : Text) (pages : List Text) :
    (processIncremental cs ov bs dI fn pages).numero = firstNumero (pages.take 10)
  ∧ ((processIncremental cs ov bs dI fn pages).numero = none ↔
      ∀ p ∈ pages.take 10, extractNumero (pageContent p) = none) := by
  have h1 : (processIncremental cs ov bs dI fn pages).numero = firstNumero (pages.take 10) := by
    rw [processIncremental_numero, foldl_numero]
    show (if (1 : Nat) ≤ 10 then firstNumero (pages.take (11 - 1)) else none)
        = firstNumero (pages.take 10)
    rw [if_pos (by omega)]
  exact ⟨h1, by rw [h1]; exact firstNumero_eq_none (pages.take 10)⟩

end Processia
